import Mathlib

/-!
Shallow embedding of the training / validation / inference orchestrator of the
tumor-detection-segmentation repository, together with theorems settling the
frozen claims about its specification.

Sources embedded:
* src/src/training/trainer.py       (ModelTrainer: train_epoch, save/load_checkpoint, train)
* src/src/training/train_enhanced.py (train_one_epoch, validate, main's resume and epoch loop)
* src/src/inference/inference.py    (TumorPredictor: _predict_with_tta, predict_batch)
* the sliding-window plan and the Dice metric conventions are provided by the
  external MONAI library (not under src/) and are modelled from the spec where
  indicated.

Real-valued quantities (losses, Dice values, probabilities) are embedded as
rationals; epoch counters and sizes as naturals.
-/

/-! ## Checkpoint store and resume (trainer.py, train_enhanced.py main) -/

/-- Checkpoint record written by ModelTrainer.save_checkpoint: model parameters,
optimizer state, epoch index and best metric (trainer.py lines 410-417).
Parameter and optimizer state spaces are abstract types. -/
structure Checkpoint (P O : Type) where
  model_state_dict : P
  optimizer_state_dict : O
  epoch : Nat
  best_metric : ℚ

/-- Mutable trainer state relevant to checkpointing (ModelTrainer fields). -/
structure TrainerState (P O : Type) where
  modelParams : P
  optimState : O
  current_epoch : Nat
  best_metric : ℚ

/-- ModelTrainer.load_checkpoint (trainer.py lines 432-445): overwrites the
model parameters, the optimizer state, the epoch counter and the best metric
with the checkpoint's fields. -/
def load_checkpoint {P O : Type} (_self : TrainerState P O) (ck : Checkpoint P O) :
    TrainerState P O :=
  { modelParams := ck.model_state_dict
    optimState := ck.optimizer_state_dict
    current_epoch := ck.epoch
    best_metric := ck.best_metric }

/-- Resume logic of train_enhanced.main (lines 479-486):
start_epoch = state.get("epoch", 0). -/
def resumeStartEpoch {P O : Type} (ck : Checkpoint P O) : Nat := ck.epoch

/-- Epoch indices executed by the training loop
"for epoch in range(start_epoch, epochs)" (train_enhanced.main line 528). -/
def epochsRun (start_epoch epochs : Nat) : List Nat :=
  List.range' start_epoch (epochs - start_epoch)

/-- Concrete checkpoint whose saved epoch index is 3. -/
def ckExample : Checkpoint Nat Nat :=
  { model_state_dict := 0, optimizer_state_dict := 0, epoch := 3, best_metric := 0 }

/-- Concrete pre-resume trainer state used to exercise load_checkpoint. -/
def tsExample : TrainerState Nat Nat :=
  { modelParams := 7, optimState := 7, current_epoch := 0, best_metric := 0 }

/-! ## Best / latest checkpoint policy (train_enhanced.py main epoch loop) -/

/-- Checkpoint-write events emitted by the orchestrator loop. -/
inductive CkptEvent where
  | bestWrite (epoch : Nat)
  | lastWrite (epoch : Nat)
deriving DecidableEq

/-- Recognizes a write of the "latest"/final checkpoint (last.pt). -/
def isLastWriteEvent : CkptEvent → Bool
  | CkptEvent.lastWrite _ => true
  | _ => false

/-- State threaded through the epoch loop of train_enhanced.main:
the best validation dice so far and the checkpoint writes performed. -/
structure EnhLoopState where
  best_dice : ℚ
  events : List CkptEvent

/-- One epoch of train_enhanced.main's loop (lines 528-574): validation runs
when (epoch + 1) % val_interval == 0; if the new dice strictly exceeds
best_dice, best_dice is updated and the best checkpoint is written. -/
def enhEpochStep (val_interval : Nat) (dice : Nat → ℚ) (s : EnhLoopState)
    (epoch : Nat) : EnhLoopState :=
  if (epoch + 1) % val_interval = 0 then
    if s.best_dice < dice epoch then
      { best_dice := dice epoch, events := s.events ++ [CkptEvent.bestWrite epoch] }
    else s
  else s

/-- The epoch loop of train_enhanced.main from epoch 0, with best_dice
initialized to -1.0 (line 525). -/
def enhTrainLoop (val_interval : Nat) (dice : Nat → ℚ) (epochs : Nat) :
    EnhLoopState :=
  (List.range epochs).foldl (enhEpochStep val_interval dice)
    { best_dice := -1, events := [] }

/-- Full run of train_enhanced.main: the epoch loop followed by the single
write of the final checkpoint last.pt with epoch = epochs - 1
(lines 576-582). -/
def enhTrainRun (val_interval : Nat) (dice : Nat → ℚ) (epochs : Nat) :
    EnhLoopState :=
  let s := enhTrainLoop val_interval dice epochs
  { best_dice := s.best_dice
    events := s.events ++ [CkptEvent.lastWrite (epochs - 1)] }

/-- Best validation dice recorded strictly before the given epoch (the value
of best_dice when the given epoch begins). -/
def enhBestBefore (val_interval : Nat) (dice : Nat → ℚ) (epoch : Nat) : ℚ :=
  (List.range epoch).foldl
    (fun b e => if (e + 1) % val_interval = 0 ∧ b < dice e then dice e else b)
    (-1)

/-- Expected checkpoint-write events of the epoch loop: one best-checkpoint
write exactly at each validated epoch whose dice strictly exceeds the best
recorded so far. -/
def enhExpectedEvents (val_interval : Nat) (dice : Nat → ℚ) (epochs : Nat) :
    List CkptEvent :=
  (List.range epochs).filterMap (fun e =>
    if (e + 1) % val_interval = 0 ∧ enhBestBefore val_interval dice e < dice e
    then some (CkptEvent.bestWrite e) else none)

/-! ## Checkpoint write operations (trainer.py save_checkpoint, train_enhanced.py) -/

/-- Filesystem operations a checkpoint write could perform. -/
inductive FileOp where
  | writeFile (path : String)
  | writeTempFile (path : String)
  | renameFile (src dst : String)
deriving DecidableEq

/-- True exactly on a direct in-place write to a destination path. -/
def isInPlaceWrite : FileOp → Bool
  | FileOp.writeFile _ => true
  | _ => false

/-- True exactly on a rename operation. -/
def isRenameOp : FileOp → Bool
  | FileOp.renameFile _ _ => true
  | _ => false

/-- File operations performed by ModelTrainer.save_checkpoint
(trainer.py lines 405-430): torch.save directly to latest_checkpoint.pth,
and, when is_best, torch.save directly to best_model.pth. -/
def save_checkpoint_ops (is_best : Bool) : List FileOp :=
  [FileOp.writeFile "latest_checkpoint.pth"] ++
    (if is_best then [FileOp.writeFile "best_model.pth"] else [])

/-- File operations of the best-checkpoint write in train_enhanced.main
(line 570): torch.save(state, best_ckpt). -/
def enhSaveBestOps : List FileOp := [FileOp.writeFile "best.pt"]

/-- File operations of the final-checkpoint write in train_enhanced.main
(line 582): torch.save(final_state, final_ckpt). -/
def enhSaveFinalOps : List FileOp := [FileOp.writeFile "last.pt"]

/-- The spec's atomicity property for a checkpoint write: never a direct
in-place write (each write goes to a temp file and is then renamed). -/
def AtomicWrites (ops : List FileOp) : Prop :=
  ∀ op ∈ ops, isInPlaceWrite op = false

instance (ops : List FileOp) : Decidable (AtomicWrites ops) := by
  unfold AtomicWrites; infer_instance

/-! ## Validation driver (train_enhanced.py validate) -/

/-- The batch loop of validate (train_enhanced.py lines 307-310): iterate the
loader with its batch index and break as soon as
val_max_batches > 0 and batch_idx >= val_max_batches. Each processed batch
contributes its per-batch dice values (embedded as one rational per batch). -/
def valLoop (val_max_batches : Nat) : Nat → List ℚ → List ℚ
  | _, [] => []
  | batch_idx, b :: rest =>
    if 0 < val_max_batches ∧ val_max_batches ≤ batch_idx then []
    else b :: valLoop val_max_batches (batch_idx + 1) rest

/-- DiceMetric aggregation with reduction "mean": the mean of the accumulated
per-batch values. -/
def aggregateMean (xs : List ℚ) : ℚ := xs.sum / xs.length

/-- The dictionary returned by validate (train_enhanced.py line 378):
the aggregated dice and n = len(loader). -/
structure ValResult where
  dice : ℚ
  n : Nat

/-- validate (train_enhanced.py lines 283-378), restricted to the metric path:
processes batches through the capped loop, aggregates the dice metric over the
processed batches, and returns it with n = len(loader). -/
def validateRun (val_max_batches : Nat) (loader : List ℚ) : ValResult :=
  { dice := aggregateMean (valLoop val_max_batches 0 loader)
    n := loader.length }

/-! ## Epoch-mean training loss (trainer.py train_epoch, train_enhanced.py train_one_epoch) -/

/-- train_one_epoch (train_enhanced.py lines 251-280): accumulates
epoch_loss += loss and count += 1 over the loader, and returns
epoch_loss / max(1, count). The per-batch loss is an abstract function of the
batch. -/
def train_one_epoch {α : Type} (batchLoss : α → ℚ) (loader : List α) : ℚ :=
  let p := loader.foldl (fun (acc : ℚ × Nat) b => (acc.1 + batchLoss b, acc.2 + 1)) (0, 0)
  p.1 / (max 1 p.2)

/-- ModelTrainer.train_epoch (trainer.py lines 313-361): accumulates
epoch_loss += loss over all batches and returns
epoch_loss / num_batches with num_batches = len(train_loader). -/
def train_epoch {α : Type} (batchLoss : α → ℚ) (loader : List α) : ℚ :=
  (loader.foldl (fun acc b => acc + batchLoss b) 0) / loader.length

/-! ## Batch inference (inference.py TumorPredictor.predict_batch) -/

/-- The exception kinds caught by predict_batch's except clause
(inference.py line 218). -/
inductive PredError where
  | runtimeError (msg : String)
  | valueError (msg : String)
  | osError (msg : String)

/-- One entry of the list returned by predict_batch: either a successful
result or an error record, each carrying its image path. -/
inductive BatchEntry (ρ : Type) where
  | ok (image_path : String) (result : ρ)
  | err (image_path : String) (e : PredError)

/-- The "status" field of a batch entry. -/
def entryStatus {ρ : Type} : BatchEntry ρ → String
  | BatchEntry.ok _ _ => "success"
  | BatchEntry.err _ _ => "error"

/-- The "image_path" field of a batch entry. -/
def entryPath {ρ : Type} : BatchEntry ρ → String
  | BatchEntry.ok p _ => p
  | BatchEntry.err p _ => p

/-- The try/except body of predict_batch for one path (inference.py lines
213-225): a successful predict_single yields a success entry; a RuntimeError,
ValueError or OSError yields an error entry for that path. -/
def entryOf {ρ : Type} (predict_single : String → Except PredError ρ)
    (image_path : String) : BatchEntry ρ :=
  match predict_single image_path with
  | Except.ok r => BatchEntry.ok image_path r
  | Except.error e => BatchEntry.err image_path e

/-- predict_batch (inference.py lines 209-227): iterates the paths in order,
appending one entry per path to the results list. -/
def predict_batch {ρ : Type} (predict_single : String → Except PredError ρ)
    (image_paths : List String) : List (BatchEntry ρ) :=
  image_paths.foldl (fun results p => results ++ [entryOf predict_single p]) []

/-! ## Flip-based TTA (inference.py TumorPredictor._predict_with_tta)

A class-score tensor with batch size 1 is embedded as a function from the
class index and the spatial position to a rational score; the batch dimension
is dropped and the channel dimension made explicit, so python tensor
dimension j (j >= 2) corresponds to spatial axis j - 2 here. -/

/-- Class-score tensor: C channels of rational values over spatial index σ. -/
abbrev Ten (C : Nat) (σ : Type) := Fin C → σ → ℚ

/-- Spatial index for k axes of sizes d: one coordinate per axis. -/
abbrev Ix {k : Nat} (d : Fin k → Nat) : Type := (i : Fin k) → Fin (d i)

/-- Reversal of one coordinate along an axis of size n (what torch.flip does
to the indices of one flipped dimension). -/
def flipCoord {n : Nat} (x : Fin n) : Fin n :=
  ⟨n - 1 - x.val, by have h := x.isLt; omega⟩

/-- Index action of torch.flip(·, dims=axes): coordinates of the listed axes
are reversed, the others untouched. -/
def flipIx {k : Nat} {d : Fin k → Nat} (axes : List (Fin k)) (v : Ix d) : Ix d :=
  fun i => if i ∈ axes then flipCoord (v i) else v i

/-- torch.flip(t, dims=axes) on a class-score tensor. -/
def flipT {C k : Nat} {d : Fin k → Nat} (axes : List (Fin k)) (t : Ten C (Ix d)) :
    Ten C (Ix d) :=
  fun c s => t c (flipIx axes s)

/-- spatial_dims = list(range(2, n_dims)) (inference.py line 181), shifted to
axis indices 0..k-1. -/
def spatial_dims (k : Nat) : List (Fin k) := List.finRange k

/-- The flip combinations built by _predict_with_tta (inference.py lines
183-192): the empty flip (identity), each single axis, the first axis pair
when there are at least two axes, and, for three axes, the remaining two
pairs and the all-axes flip, in source order. -/
def flip_sets (k : Nat) : List (List (Fin k)) :=
  let sd := spatial_dims k
  [[]] ++ sd.map (fun a => [a]) ++
    (if 2 ≤ sd.length then [sd.take 2] else []) ++
    (if sd.length = 3 then [sd.take 1 ++ sd.drop 2, sd.drop 1, sd] else [])

/-- torch.softmax(·, dim=1) acts at each voxel on the vector of class scores.
It is embedded as an abstract per-voxel map on class vectors applied at every
spatial position (real exponentials are not representable over ℚ; every
property proved here holds for any per-voxel class-vector map, softmax
included). -/
def perVoxel {C : Nat} {σ : Type} (toProbs : (Fin C → ℚ) → (Fin C → ℚ))
    (t : Ten C σ) : Ten C σ :=
  fun c s => toProbs (fun c2 => t c2 s) c

/-- torch.argmax(·, dim=1) at one voxel: the first class index attaining the
maximal value. -/
def argmaxClass {C : Nat} [NeZero C] (f : Fin C → ℚ) : Fin C :=
  (List.finRange C).foldl (fun best c => if f best < f c then c else best)
    ⟨0, Nat.pos_of_ne_zero (NeZero.ne C)⟩

/-- One member of the TTA ensemble (inference.py lines 195-204): flip the
input, run the model, take per-voxel class probabilities, and undo the flip
on the probability map. -/
def ttaTerm {C k : Nat} {d : Fin k → Nat}
    (toProbs : (Fin C → ℚ) → (Fin C → ℚ))
    (model : Ten C (Ix d) → Ten C (Ix d)) (image : Ten C (Ix d))
    (axes : List (Fin k)) : Ten C (Ix d) :=
  flipT axes (perVoxel toProbs (model (flipT axes image)))

/-- The accumulated probability sum agg_probs over a list of flip sets
(inference.py lines 194-204). -/
def ttaSum {C k : Nat} {d : Fin k → Nat}
    (sets : List (List (Fin k)))
    (toProbs : (Fin C → ℚ) → (Fin C → ℚ))
    (model : Ten C (Ix d) → Ten C (Ix d)) (image : Ten C (Ix d)) :
    Ten C (Ix d) :=
  (sets.map (ttaTerm toProbs model image)).sum

/-- agg_probs / float(len(flip_sets)) (inference.py line 206) over a given
list of flip sets. -/
def ttaMean {C k : Nat} {d : Fin k → Nat}
    (sets : List (List (Fin k)))
    (toProbs : (Fin C → ℚ) → (Fin C → ℚ))
    (model : Ten C (Ix d) → Ten C (Ix d)) (image : Ten C (Ix d)) :
    Ten C (Ix d) :=
  fun c s => ttaSum sets toProbs model image c s / (sets.length : ℚ)

/-- torch.argmax(agg_probs / len, dim=1) over a given list of flip sets. -/
def predictTtaOver {C k : Nat} [NeZero C] {d : Fin k → Nat}
    (sets : List (List (Fin k)))
    (toProbs : (Fin C → ℚ) → (Fin C → ℚ))
    (model : Ten C (Ix d) → Ten C (Ix d)) (image : Ten C (Ix d)) :
    Ix d → Fin C :=
  fun s => argmaxClass (fun c => ttaMean sets toProbs model image c s)

/-- _predict_with_tta (inference.py lines 158-207): ensemble over the curated
flip sets for k spatial axes, then per-voxel arg-max. -/
def predict_with_tta {C k : Nat} [NeZero C] {d : Fin k → Nat}
    (toProbs : (Fin C → ℚ) → (Fin C → ℚ))
    (model : Ten C (Ix d) → Ten C (Ix d)) (image : Ten C (Ix d)) :
    Ix d → Fin C :=
  predictTtaOver (flip_sets k) toProbs model image

/-- The no-TTA path of predict_single (inference.py lines 137-139):
argmax(softmax(model(image)), dim=1). -/
def predictNoTta {C k : Nat} [NeZero C] {d : Fin k → Nat}
    (toProbs : (Fin C → ℚ) → (Fin C → ℚ))
    (model : Ten C (Ix d) → Ten C (Ix d)) (image : Ten C (Ix d)) :
    Ix d → Fin C :=
  fun s => argmaxClass (fun c => perVoxel toProbs (model image) c s)

/-! ## Dice metric conventions (spec-modelled)

The DiceMetric used by ModelTrainer._setup_metrics (trainer.py lines 291-296)
and by validate (train_enhanced.py line 299) comes from the external MONAI
library, which is not under src/; only its construction with
include_background=False is repository code. The statistic itself is
modelled from the spec below. -/

/-- Modelled from the spec: the per-class Dice statistic
2·|A∩B| / (|A|+|B|) between a discrete prediction and a discrete ground
truth over a finite voxel grid, with the convention that a class with no
positive voxel in either mask scores exactly 1.0. -/
def diceScore {σ : Type} [Fintype σ] (pred gt : σ → Nat) (c : Nat) : ℚ :=
  if (Finset.univ.filter (fun v => pred v = c)).card
      + (Finset.univ.filter (fun v => gt v = c)).card = 0 then 1
  else
    (2 * ((Finset.univ.filter (fun v => pred v = c ∧ gt v = c)).card : ℚ)) /
      (((Finset.univ.filter (fun v => pred v = c)).card : ℚ)
        + ((Finset.univ.filter (fun v => gt v = c)).card : ℚ))

/-- Modelled from the spec: the classes the metric counts; with
include_background false, class index 0 is never counted. -/
def includedClasses (num_classes : Nat) (include_background : Bool) : List Nat :=
  if include_background then List.range num_classes
  else (List.range num_classes).filter (fun c => c != 0)

/-- The include_background argument the repository passes when constructing
DiceMetric (trainer.py line 294, train_enhanced.py line 299). -/
def trainer_include_background : Bool := false

/-- The classes counted by the repository's metric aggregator. -/
def dice_metric_classes (num_classes : Nat) : List Nat :=
  includedClasses num_classes trainer_include_background

/-! ## Sliding-window plan (spec-modelled)

The window plan of sliding-window inference is computed inside MONAI's
SlidingWindowInferer, an external library dependency not under src/;
validate (train_enhanced.py lines 315-328) only constructs
SlidingWindowInferer(roi_size, sw_batch_size=1, overlap=sw_overlap).
The plan generation is modelled from spec section 4.1. -/

/-- Modelled from the spec: per-axis starting stride
round(roi_size * (1 - overlap)), clamped to >= 1. -/
def stride (roi : Nat) (overlap : ℚ) : Nat :=
  max 1 (round ((roi : ℚ) * (1 - overlap))).toNat

/-- Modelled from the spec: per-axis window origins: step by the stride from 0
while origin + roi < extent, then force a final window flush against the end;
when roi exceeds the extent the inferer pads, so the effective extent is
max extent roi. -/
def axisOrigins (extent roi : Nat) (overlap : ℚ) : List Nat :=
  let E := max extent roi
  let s := stride roi overlap
  ((List.range ((E - roi + s - 1) / s)).map (fun i => i * s)) ++ [E - roi]

/-- All coordinate tuples built from per-axis candidate lists. -/
def cartProd : List (List Nat) → List (List Nat)
  | [] => [[]]
  | xs :: rest => xs.flatMap (fun x => (cartProd rest).map (fun t => x :: t))

/-- Modelled from the spec: the Window Plan for axis-wise extents and roi
sizes, as the product of the per-axis origin lists. -/
def windowPlan (extents rois : List Nat) (overlap : ℚ) : List (List Nat) :=
  cartProd ((List.zip extents rois).map (fun p => axisOrigins p.1 p.2 overlap))

/-- A window at the given per-axis origins contains the given voxel: on every
axis the voxel coordinate lies in [origin, origin + roi). -/
def windowContains (origin voxel rois : List Nat) : Prop :=
  List.Forall₂ (fun o p => o ≤ p.1 ∧ p.1 < o + p.2) origin (voxel.zip rois)

/-- Concrete 2-axis spatial sizes used to exercise the TTA ensembler. -/
def exDims : Fin 2 → Nat := fun _ => 2

/-- Concrete identity per-voxel class map (a trivially valid toProbs). -/
def exProbs : (Fin 1 → ℚ) → (Fin 1 → ℚ) := fun v => v

/-- Concrete identity predictor, which is flip-equivariant. -/
def exModel : Ten 1 (Ix exDims) → Ten 1 (Ix exDims) := fun y => y

/-- Concrete constant input image. -/
def exImage : Ten 1 (Ix exDims) := fun _ _ => 0

/-! # Helper lemmas -/

theorem enhTrainLoop_succ (vi : Nat) (dice : Nat → ℚ) (m : Nat) :
    enhTrainLoop vi dice (m + 1) = enhEpochStep vi dice (enhTrainLoop vi dice m) m := by
  unfold enhTrainLoop
  rw [List.range_succ, List.foldl_append]
  rfl

theorem enhBestBefore_succ (vi : Nat) (dice : Nat → ℚ) (m : Nat) :
    enhBestBefore vi dice (m + 1)
      = if (m + 1) % vi = 0 ∧ enhBestBefore vi dice m < dice m then dice m
        else enhBestBefore vi dice m := by
  unfold enhBestBefore
  rw [List.range_succ, List.foldl_append]
  rfl

theorem enhExpectedEvents_succ (vi : Nat) (dice : Nat → ℚ) (m : Nat) :
    enhExpectedEvents vi dice (m + 1)
      = enhExpectedEvents vi dice m ++
          (if (m + 1) % vi = 0 ∧ enhBestBefore vi dice m < dice m
           then [CkptEvent.bestWrite m] else []) := by
  unfold enhExpectedEvents
  rw [List.range_succ, List.filterMap_append]
  by_cases hc : (m + 1) % vi = 0 ∧ enhBestBefore vi dice m < dice m <;>
    simp [List.filterMap_cons, hc]

theorem enhTrainLoop_spec (vi : Nat) (dice : Nat → ℚ) (n : Nat) :
    enhTrainLoop vi dice n
      = { best_dice := enhBestBefore vi dice n
          events := enhExpectedEvents vi dice n } := by
  induction n with
  | zero => rfl
  | succ m ih =>
    rw [enhTrainLoop_succ, ih, enhBestBefore_succ, enhExpectedEvents_succ]
    unfold enhEpochStep
    by_cases h1 : (m + 1) % vi = 0
    · by_cases h2 : enhBestBefore vi dice m < dice m
      · simp [h1, h2]
      · simp [h1, h2]
    · simp [h1]

theorem foldl_sum_count {α : Type} (f : α → ℚ) (l : List α) (a : ℚ) (n : Nat) :
    l.foldl (fun (acc : ℚ × Nat) b => (acc.1 + f b, acc.2 + 1)) (a, n)
      = (a + (l.map f).sum, n + l.length) := by
  induction l generalizing a n with
  | nil => simp
  | cons x xs ih =>
    simp [ih, add_assoc]
    omega

theorem foldl_add_eq_sum {α : Type} (f : α → ℚ) (l : List α) (a : ℚ) :
    l.foldl (fun acc b => acc + f b) a = a + (l.map f).sum := by
  induction l generalizing a with
  | nil => simp
  | cons x xs ih => simp [ih, add_assoc]

theorem predict_batch_eq_map {ρ : Type} (f : String → Except PredError ρ)
    (paths : List String) (acc : List (BatchEntry ρ)) :
    paths.foldl (fun results p => results ++ [entryOf f p]) acc
      = acc ++ paths.map (entryOf f) := by
  induction paths generalizing acc with
  | nil => simp
  | cons p ps ih => simp [ih]

/-! # Claim theorems -/

/-- C1 counterexample: resuming from a checkpoint saved at epoch 3 with 5
total epochs begins at epoch 3, not at epoch 3 + 1; the saved epoch is
re-run, refuting the claim that training resumes at the saved epoch + 1. -/
theorem resume_reruns_saved_epoch_cex :
    (epochsRun (resumeStartEpoch ckExample) 5).head? = some 3 ∧
    (epochsRun (resumeStartEpoch ckExample) 5).head? ≠ some (ckExample.epoch + 1) ∧
    ckExample.epoch ∈ epochsRun (resumeStartEpoch ckExample) 5 := by decide

/-- C1 (amended): loading a checkpoint restores the model parameters, the
optimizer state and the epoch counter, and a resumed run begins its first
new training epoch at the saved epoch e itself (the saved epoch is re-run),
not at e + 1. -/
theorem resume_restores_state_and_starts_at_saved_epoch
    {P O : Type} (s : TrainerState P O) (ck : Checkpoint P O) (epochs : Nat)
    (h : ck.epoch < epochs) :
    (load_checkpoint s ck).modelParams = ck.model_state_dict ∧
    (load_checkpoint s ck).optimState = ck.optimizer_state_dict ∧
    (load_checkpoint s ck).current_epoch = ck.epoch ∧
    (epochsRun (resumeStartEpoch ck) epochs).head? = some ck.epoch := by
  refine ⟨rfl, rfl, rfl, ?_⟩
  unfold epochsRun resumeStartEpoch
  obtain ⟨m, hm⟩ : ∃ m, epochs - ck.epoch = m + 1 := ⟨epochs - ck.epoch - 1, by omega⟩
  rw [hm]
  simp [List.range']

/-- C1 witness: the amended resume theorem applied to the concrete
checkpoint saved at epoch 3 with 5 total epochs. -/
theorem resume_restores_witness :
    ckExample.epoch < 5 ∧
    ((load_checkpoint tsExample ckExample).modelParams = ckExample.model_state_dict ∧
     (load_checkpoint tsExample ckExample).optimState = ckExample.optimizer_state_dict ∧
     (load_checkpoint tsExample ckExample).current_epoch = ckExample.epoch ∧
     (epochsRun (resumeStartEpoch ckExample) 5).head? = some ckExample.epoch) :=
  ⟨by decide,
   resume_restores_state_and_starts_at_saved_epoch tsExample ckExample 5 (by decide)⟩

/-- C2 counterexample: a 2-epoch run of train_enhanced.main performs exactly
one write of the final/latest checkpoint, not one per epoch, refuting the
claim that the latest checkpoint is persisted after every epoch. -/
theorem latest_checkpoint_not_every_epoch_cex :
    (enhTrainRun 1 (fun _ => 0) 2).events.countP isLastWriteEvent = 1 ∧
    (1 : Nat) ≠ 2 := by decide

/-- C2 (amended): in train_enhanced.main's loop the best checkpoint is
overwritten exactly at each validated epoch whose metric strictly exceeds
the previously recorded best, but the latest/final checkpoint is written
exactly once, after the final epoch, rather than after every epoch. -/
theorem best_checkpoint_iff_strict_improvement (vi : Nat) (dice : Nat → ℚ)
    (epochs : Nat) :
    (enhTrainRun vi dice epochs).events
      = enhExpectedEvents vi dice epochs ++ [CkptEvent.lastWrite (epochs - 1)] ∧
    (enhTrainRun vi dice epochs).events.countP isLastWriteEvent = 1 := by
  have hev : (enhTrainRun vi dice epochs).events
      = enhExpectedEvents vi dice epochs ++ [CkptEvent.lastWrite (epochs - 1)] := by
    unfold enhTrainRun
    rw [enhTrainLoop_spec]
  refine ⟨hev, ?_⟩
  rw [hev, List.countP_append]
  have h0 : (enhExpectedEvents vi dice epochs).countP isLastWriteEvent = 0 := by
    rw [List.countP_eq_zero]
    intro a ha
    unfold enhExpectedEvents at ha
    rw [List.mem_filterMap] at ha
    obtain ⟨e, _, he⟩ := ha
    by_cases hc : (e + 1) % vi = 0 ∧ enhBestBefore vi dice e < dice e
    · rw [if_pos hc] at he
      cases he
      simp [isLastWriteEvent]
    · rw [if_neg hc] at he
      cases he
  rw [h0]
  simp [List.countP_cons, isLastWriteEvent]

/-- C3 counterexample: the operations performed by
ModelTrainer.save_checkpoint and by the checkpoint writes of
train_enhanced.main are direct in-place writes with no rename, refuting
the claim that every checkpoint write is write-to-temp-then-rename. -/
theorem checkpoint_write_not_atomic_cex :
    ¬ AtomicWrites (save_checkpoint_ops false) ∧
    (save_checkpoint_ops true).any isInPlaceWrite = true ∧
    (save_checkpoint_ops true).any isRenameOp = false ∧
    enhSaveBestOps.any isRenameOp = false ∧
    enhSaveFinalOps.any isRenameOp = false := by decide

/-- C3 (amended): every checkpoint write in the repository is a direct
in-place write to the destination path (torch.save), with no temp file and
no rename, so checkpoint writes are not atomic. -/
theorem checkpoint_writes_in_place (is_best : Bool) :
    (save_checkpoint_ops is_best).all isInPlaceWrite = true ∧
    (save_checkpoint_ops is_best).all (fun op => !(isRenameOp op)) = true ∧
    (enhSaveBestOps ++ enhSaveFinalOps).all
      (fun op => isInPlaceWrite op && !(isRenameOp op)) = true := by
  cases is_best <;> decide

theorem valLoop_eq_take (cap : Nat) (l : List ℚ) : ∀ i,
    valLoop cap i l = (if 0 < cap then l.take (cap - i) else l) := by
  induction l with
  | nil =>
    intro i
    simp [valLoop]
  | cons b rest ih =>
    intro i
    by_cases hc : 0 < cap
    · by_cases hi : cap ≤ i
      · have h0 : cap - i = 0 := by omega
        simp [valLoop, hc, hi, h0]
      · obtain ⟨m, hm⟩ : ∃ m, cap - i = m + 1 := ⟨cap - i - 1, by omega⟩
        have hm2 : cap - (i + 1) = m := by omega
        rw [show valLoop cap i (b :: rest)
              = b :: valLoop cap (i + 1) rest by simp [valLoop, hc, hi]]
        rw [ih (i + 1), if_pos hc, hm2, if_pos hc, hm]
        rfl
    · simp [valLoop, hc, ih (i + 1)]

/-- C6 counterexample: with a validation cap of 1 batch on a 3-batch loader,
only 1 batch is processed but the returned count n is 3 = len(loader),
refuting the claim that the returned count reflects the capped pass. -/
theorem validate_count_ignores_cap_cex :
    (validateRun 1 [0, 0, 0]).n = 3 ∧
    (valLoop 1 0 [0, 0, 0]).length = 1 ∧
    (validateRun 1 [0, 0, 0]).n ≠ (valLoop 1 0 [0, 0, 0]).length := by decide

/-- C6 (amended): validate aggregates the metric over the processed batches
and honors the cap (with a positive cap at most that many batches are
processed), but the count it returns is always the total loader length
len(loader), not the number of batches actually processed. -/
theorem validate_returns_loader_length_and_caps_batches (cap : Nat)
    (loader : List ℚ) :
    (validateRun cap loader).n = loader.length ∧
    valLoop cap 0 loader = (if 0 < cap then loader.take cap else loader) ∧
    (valLoop cap 0 loader).length
      = (if 0 < cap then min cap loader.length else loader.length) ∧
    (validateRun cap loader).dice
      = aggregateMean (if 0 < cap then loader.take cap else loader) := by
  have h := valLoop_eq_take cap loader 0
  rw [Nat.sub_zero] at h
  refine ⟨rfl, h, ?_, ?_⟩
  · rw [h]
    by_cases hc : 0 < cap
    · simp [hc, List.length_take]
    · simp [hc]
  · show aggregateMean (valLoop cap 0 loader) = _
    rw [h]

/-- C9: on a non-empty training stream, both ModelTrainer.train_epoch and
train_one_epoch return the mean training loss for the epoch: the sum of the
per-batch losses divided by the number of batches iterated. -/
theorem train_one_epoch_returns_mean_loss {α : Type} (batchLoss : α → ℚ)
    (loader : List α) (h : loader ≠ []) :
    train_one_epoch batchLoss loader
      = (loader.map batchLoss).sum / loader.length ∧
    train_epoch batchLoss loader
      = (loader.map batchLoss).sum / loader.length := by
  have hlen : 1 ≤ loader.length := by
    cases loader with
    | nil => exact absurd rfl h
    | cons a l => simp
  constructor
  · unfold train_one_epoch
    rw [foldl_sum_count]
    simp [Nat.max_eq_right hlen]
  · unfold train_epoch
    rw [foldl_add_eq_sum]
    simp

/-- C9 witness: the epoch-mean theorem applied to a concrete 2-batch stream. -/
theorem train_one_epoch_mean_witness :
    (([(1 : ℚ), 2] : List ℚ) ≠ []) ∧
    (train_one_epoch (fun x : ℚ => x) [1, 2]
        = (([(1 : ℚ), 2]).map (fun x : ℚ => x)).sum / (([(1 : ℚ), 2]).length : ℚ) ∧
     train_epoch (fun x : ℚ => x) [1, 2]
        = (([(1 : ℚ), 2]).map (fun x : ℚ => x)).sum / (([(1 : ℚ), 2]).length : ℚ)) :=
  ⟨by decide, train_one_epoch_returns_mean_loss (fun x : ℚ => x) [1, 2] (by decide)⟩

/-- C10: predict_batch returns exactly one entry per input path, in input
order, each with status "success" or "error"; an entry for one path is
determined by predict_single on that path alone, so a caught error on one
image does not abort or alter the processing of the remaining paths. -/
theorem predict_batch_per_path_results {ρ : Type}
    (predict_single : String → Except PredError ρ) (image_paths : List String) :
    predict_batch predict_single image_paths
      = image_paths.map (entryOf predict_single) ∧
    (predict_batch predict_single image_paths).map entryPath = image_paths ∧
    (predict_batch predict_single image_paths).length = image_paths.length ∧
    (predict_batch predict_single image_paths).all
      (fun en => (entryStatus en == "success") || (entryStatus en == "error"))
      = true := by
  have hmap : predict_batch predict_single image_paths
      = image_paths.map (entryOf predict_single) := by
    unfold predict_batch
    rw [predict_batch_eq_map]
    simp
  refine ⟨hmap, ?_, ?_, ?_⟩
  · rw [hmap, List.map_map]
    have hcomp : entryPath ∘ entryOf predict_single = id := by
      funext p
      simp only [Function.comp_apply, id_eq, entryOf]
      cases predict_single p <;> rfl
    rw [hcomp, List.map_id]
  · rw [hmap, List.length_map]
  · rw [hmap, List.all_eq_true]
    intro en hen
    rw [List.mem_map] at hen
    obtain ⟨p, _, rfl⟩ := hen
    unfold entryOf
    cases predict_single p <;> simp [entryStatus]

/-- C5: the repository constructs its metric aggregator with
include_background=False, so class index 0 is never among the counted
classes; for a class with no positive voxel in either prediction or ground
truth the Dice statistic is exactly 1, and for a class present in the ground
truth but entirely absent from the prediction it is exactly 0. -/
theorem dice_metric_background_and_empty_conventions
    {σ : Type} [Fintype σ]
    (pred gt pred2 gt2 : σ → Nat) (c num_classes : Nat)
    (hpred : ∀ v, pred v ≠ c) (hgt : ∀ v, gt v ≠ c)
    (hgt2 : ∃ v, gt2 v = c) (hpred2 : ∀ v, pred2 v ≠ c) :
    0 ∉ dice_metric_classes num_classes ∧
    diceScore pred gt c = 1 ∧
    diceScore pred2 gt2 c = 0 := by
  refine ⟨?_, ?_, ?_⟩
  · intro hmem
    unfold dice_metric_classes includedClasses trainer_include_background at hmem
    simp [List.mem_filter] at hmem
  · unfold diceScore
    have hpa : (Finset.univ.filter (fun v => pred v = c)).card = 0 := by
      rw [Finset.card_eq_zero, Finset.filter_eq_empty_iff]
      intro v _
      exact hpred v
    have hga : (Finset.univ.filter (fun v => gt v = c)).card = 0 := by
      rw [Finset.card_eq_zero, Finset.filter_eq_empty_iff]
      intro v _
      exact hgt v
    simp [hpa, hga]
  · unfold diceScore
    have hpa : (Finset.univ.filter (fun v => pred2 v = c)).card = 0 := by
      rw [Finset.card_eq_zero, Finset.filter_eq_empty_iff]
      intro v _
      exact hpred2 v
    have hint : (Finset.univ.filter (fun v => pred2 v = c ∧ gt2 v = c)).card = 0 := by
      rw [Finset.card_eq_zero, Finset.filter_eq_empty_iff]
      intro v _ hand
      exact hpred2 v hand.1
    have hga : 0 < (Finset.univ.filter (fun v => gt2 v = c)).card := by
      obtain ⟨v, hv⟩ := hgt2
      refine Finset.card_pos.mpr ⟨v, ?_⟩
      simp [hv]
    rw [if_neg (by omega)]
    rw [hint]
    simp

/-- C5 witness: the metric-convention theorem applied to a concrete
single-voxel grid with class 1 absent from both masks (score 1), and with
class 1 present in ground truth but absent from prediction (score 0). -/
theorem dice_metric_conventions_witness :
    ((∀ v : Fin 1, (fun _ : Fin 1 => (0 : Nat)) v ≠ 1) ∧
     (∃ v : Fin 1, (fun _ : Fin 1 => (1 : Nat)) v = 1)) ∧
    (0 ∉ dice_metric_classes 3 ∧
     diceScore (fun _ : Fin 1 => (0 : Nat)) (fun _ : Fin 1 => (0 : Nat)) 1 = 1 ∧
     diceScore (fun _ : Fin 1 => (0 : Nat)) (fun _ : Fin 1 => (1 : Nat)) 1 = 0) :=
  ⟨⟨by decide, ⟨0, rfl⟩⟩,
   dice_metric_background_and_empty_conventions
     (fun _ : Fin 1 => (0 : Nat)) (fun _ : Fin 1 => (0 : Nat))
     (fun _ : Fin 1 => (0 : Nat)) (fun _ : Fin 1 => (1 : Nat)) 1 3
     (by decide) (by decide) ⟨0, rfl⟩ (by decide)⟩

theorem flipCoord_flipCoord {n : Nat} (x : Fin n) : flipCoord (flipCoord x) = x := by
  unfold flipCoord
  apply Fin.ext
  have h := x.isLt
  simp
  omega

theorem flipIx_flipIx {k : Nat} {d : Fin k → Nat} (axes : List (Fin k)) (v : Ix d) :
    flipIx axes (flipIx axes v) = v := by
  funext i
  unfold flipIx
  by_cases h : i ∈ axes
  · simp [h, flipCoord_flipCoord]
  · simp [h]

theorem flipT_flipT {C k : Nat} {d : Fin k → Nat} (axes : List (Fin k))
    (t : Ten C (Ix d)) : flipT axes (flipT axes t) = t := by
  funext c s
  unfold flipT
  rw [flipIx_flipIx]

theorem perVoxel_flipT {C k : Nat} {d : Fin k → Nat}
    (toProbs : (Fin C → ℚ) → (Fin C → ℚ)) (axes : List (Fin k))
    (t : Ten C (Ix d)) :
    perVoxel toProbs (flipT axes t) = flipT axes (perVoxel toProbs t) := rfl

theorem flip_sets_length_pos (k : Nat) : 0 < (flip_sets k).length := by
  unfold flip_sets
  simp

/-- C7 counterexample: for 3 spatial axes the flip set built by
_predict_with_tta has 2 ^ 3 = 8 members whose underlying axis sets are
exactly the full powerset of the three axes, so it is not a proper subset
of the exhaustive flip combinations. -/
theorem tta_flip_set_not_proper_subset_cex :
    ((flip_sets 3).map List.toFinset).toFinset
      = (Finset.univ : Finset (Fin 3)).powerset ∧
    (flip_sets 3).length = 2 ^ 3 ∧
    ¬ ((flip_sets 3).map List.toFinset).toFinset
        ⊂ (Finset.univ : Finset (Fin 3)).powerset := by decide

/-- C7 (amended): for k = 2 and k = 3 spatial axes, the flip set built by
_predict_with_tta enumerates, without duplicates, exactly all 2 ^ k flip
combinations (identity, every single axis, every pair, and the triple), and
the accumulated class probabilities are divided by exactly the member count
of that set, namely 2 ^ k, before the per-voxel arg-max. -/
theorem tta_flip_sets_exhaustive_and_mean_divisor :
    (flip_sets 2).length = 2 ^ 2 ∧
    (flip_sets 3).length = 2 ^ 3 ∧
    ((flip_sets 2).map List.toFinset).Nodup ∧
    ((flip_sets 3).map List.toFinset).Nodup ∧
    ((flip_sets 2).map List.toFinset).toFinset
      = (Finset.univ : Finset (Fin 2)).powerset ∧
    ((flip_sets 3).map List.toFinset).toFinset
      = (Finset.univ : Finset (Fin 3)).powerset ∧
    (∀ (C : Nat) (d : Fin 3 → Nat)
        (toProbs : (Fin (C + 1) → ℚ) → (Fin (C + 1) → ℚ))
        (model : Ten (C + 1) (Ix d) → Ten (C + 1) (Ix d))
        (image : Ten (C + 1) (Ix d)) (s : Ix d),
      predict_with_tta toProbs model image s
        = argmaxClass
            (fun c => ttaSum (flip_sets 3) toProbs model image c s / ((2 : ℚ) ^ 3))) := by
  refine ⟨by decide, by decide, by decide, by decide, by decide, by decide, ?_⟩
  intro C d toProbs model image s
  unfold predict_with_tta predictTtaOver ttaMean
  have hl : ((flip_sets 3).length : ℚ) = (2 : ℚ) ^ 3 := by decide
  rw [hl]

theorem ttaTerm_of_equivariant {C k : Nat} {d : Fin k → Nat}
    (toProbs : (Fin C → ℚ) → (Fin C → ℚ))
    (model : Ten C (Ix d) → Ten C (Ix d)) (image : Ten C (Ix d))
    (axes : List (Fin k))
    (h : model (flipT axes image) = flipT axes (model image)) :
    ttaTerm toProbs model image axes = perVoxel toProbs (model image) := by
  unfold ttaTerm
  rw [h, perVoxel_flipT, flipT_flipT]

/-- C8: if the wrapped predictor is flip-equivariant on the generated flip
set, the TTA ensemble's discrete output equals the no-TTA discrete output on
every input; and for any reordering (permutation) of the flip set both the
ensemble mean and the discrete prediction are unchanged. -/
theorem tta_equivariant_matches_no_tta_and_order_invariant
    {k C : Nat} [NeZero C] {d : Fin k → Nat}
    (toProbs : (Fin C → ℚ) → (Fin C → ℚ))
    (model : Ten C (Ix d) → Ten C (Ix d)) (image : Ten C (Ix d))
    (h : ∀ axes ∈ flip_sets k, ∀ x : Ten C (Ix d),
        model (flipT axes x) = flipT axes (model x)) :
    predict_with_tta toProbs model image = predictNoTta toProbs model image ∧
    (∀ sets2 : List (List (Fin k)), sets2.Perm (flip_sets k) →
      ttaMean sets2 toProbs model image = ttaMean (flip_sets k) toProbs model image ∧
      predictTtaOver sets2 toProbs model image
        = predictTtaOver (flip_sets k) toProbs model image) := by
  constructor
  · have hterm : ∀ axes ∈ flip_sets k,
        ttaTerm toProbs model image axes = perVoxel toProbs (model image) :=
      fun axes ha => ttaTerm_of_equivariant toProbs model image axes (h axes ha image)
    have hsum : ttaSum (flip_sets k) toProbs model image
        = (flip_sets k).length • perVoxel toProbs (model image) := by
      unfold ttaSum
      rw [List.map_congr_left hterm]
      rw [List.map_const']
      exact List.sum_replicate _ _
    have hlenq : (((flip_sets k).length : ℚ)) ≠ 0 := by
      have := flip_sets_length_pos k
      exact_mod_cast Nat.pos_iff_ne_zero.mp this
    have hmean : ttaMean (flip_sets k) toProbs model image
        = perVoxel toProbs (model image) := by
      funext c s
      unfold ttaMean
      rw [hsum]
      simp only [Pi.smul_apply, nsmul_eq_mul]
      exact mul_div_cancel_left₀ _ hlenq
    unfold predict_with_tta predictTtaOver predictNoTta
    funext s
    rw [hmean]
  · intro sets2 hperm
    have hsum2 : ttaSum sets2 toProbs model image
        = ttaSum (flip_sets k) toProbs model image := by
      unfold ttaSum
      exact List.Perm.sum_eq (hperm.map _)
    have hmean2 : ttaMean sets2 toProbs model image
        = ttaMean (flip_sets k) toProbs model image := by
      funext c s
      unfold ttaMean
      rw [hsum2, hperm.length_eq]
    refine ⟨hmean2, ?_⟩
    unfold predictTtaOver
    funext s
    rw [hmean2]

/-- C8 witness: the TTA identity theorem applied to the identity predictor
(which is flip-equivariant) on a concrete 2-axis input. -/
theorem tta_equivariant_witness :
    (∀ axes ∈ flip_sets 2, ∀ x : Ten 1 (Ix exDims),
        exModel (flipT axes x) = flipT axes (exModel x)) ∧
    predict_with_tta exProbs exModel exImage = predictNoTta exProbs exModel exImage :=
  ⟨fun _ _ _ => rfl,
   (tta_equivariant_matches_no_tta_and_order_invariant exProbs exModel exImage
      (fun _ _ _ => rfl)).1⟩

theorem stride_pos (roi : Nat) (overlap : ℚ) : 0 < stride roi overlap :=
  Nat.lt_of_lt_of_le Nat.zero_lt_one (Nat.le_max_left _ _)

theorem stride_le_roi (roi : Nat) (overlap : ℚ) (hroi : 1 ≤ roi)
    (h0 : 0 ≤ overlap) : stride roi overlap ≤ roi := by
  unfold stride
  have h1 : ((roi : ℚ) * (1 - overlap)) ≤ (roi : ℚ) := by
    have hr : (0 : ℚ) ≤ (roi : ℚ) := Nat.cast_nonneg roi
    nlinarith
  have h2 : round ((roi : ℚ) * (1 - overlap)) ≤ (roi : ℤ) := by
    rw [round_eq]
    calc ⌊(roi : ℚ) * (1 - overlap) + 1 / 2⌋
        ≤ ⌊(roi : ℚ) + 1 / 2⌋ := Int.floor_mono (by linarith)
      _ = round ((roi : ℚ)) := (round_eq _).symm
      _ = (roi : ℤ) := by rw [round_natCast]
  have h3 : (round ((roi : ℚ) * (1 - overlap))).toNat ≤ roi := by
    rw [Int.toNat_le]
    exact_mod_cast h2
  exact max_le hroi h3

theorem axisOrigins_cover (extent roi : Nat) (overlap : ℚ)
    (hroi : 1 ≤ roi) (h0 : 0 ≤ overlap)
    (v : Nat) (hv : v < extent) :
    ∃ o ∈ axisOrigins extent roi overlap, o ≤ v ∧ v < o + roi := by
  have hs1 : 0 < stride roi overlap := stride_pos roi overlap
  have hsr : stride roi overlap ≤ roi := stride_le_roi roi overlap hroi h0
  have hEe : extent ≤ max extent roi := Nat.le_max_left _ _
  have hrE : roi ≤ max extent roi := Nat.le_max_right _ _
  unfold axisOrigins
  by_cases hcase : max extent roi - roi ≤ v
  · refine ⟨max extent roi - roi, ?_, hcase, ?_⟩
    · exact List.mem_append_right _ (List.mem_singleton.mpr rfl)
    · omega
  · push_neg at hcase
    refine ⟨(v / stride roi overlap) * stride roi overlap, ?_,
      Nat.div_mul_le_self v (stride roi overlap), ?_⟩
    · rw [List.mem_append]
      left
      rw [List.mem_map]
      refine ⟨v / stride roi overlap, ?_, rfl⟩
      rw [List.mem_range]
      rw [Nat.lt_iff_add_one_le, Nat.le_div_iff_mul_le hs1]
      have hvs : (v / stride roi overlap) * stride roi overlap ≤ v :=
        Nat.div_mul_le_self v (stride roi overlap)
      have hdist : (v / stride roi overlap + 1) * stride roi overlap
          = (v / stride roi overlap) * stride roi overlap + stride roi overlap := by
        ring
      omega
    · have h6 := Nat.div_add_mod v (stride roi overlap)
      have h7 := Nat.mod_lt v hs1
      have h8 : stride roi overlap * (v / stride roi overlap)
          = (v / stride roi overlap) * stride roi overlap := Nat.mul_comm _ _
      omega

/-- C4: for every axis-wise volume extent, roi size at least 1 per axis, and
overlap in [0, 1), every voxel of the volume lies in at least one window of
the generated Window Plan (the plan covers the full spatial extent). -/
theorem window_plan_covers_volume (overlap : ℚ)
    (h0 : 0 ≤ overlap) (_h1 : overlap < 1) (voxel : List Nat) :
    ∀ extents rois : List Nat, extents.length = rois.length →
      (∀ r ∈ rois, 1 ≤ r) →
      List.Forall₂ (fun v e => v < e) voxel extents →
      ∃ origin ∈ windowPlan extents rois overlap,
        windowContains origin voxel rois := by
  induction voxel with
  | nil =>
    intro extents rois hlen hroi hvox
    cases hvox
    cases rois with
    | nil => exact ⟨[], by simp [windowPlan, cartProd], List.Forall₂.nil⟩
    | cons r rs => simp at hlen
  | cons v vs ih =>
    intro extents rois hlen hroi hvox
    cases hvox with
    | cons hve htail =>
      rename_i e es
      cases rois with
      | nil => simp at hlen
      | cons r rs =>
        have hlen2 : es.length = rs.length := by simpa using hlen
        have hr : 1 ≤ r := hroi r (by simp)
        have hrs : ∀ x ∈ rs, 1 ≤ x := fun x hx => hroi x (by simp [hx])
        obtain ⟨o, ho, hol, hor⟩ := axisOrigins_cover e r overlap hr h0 v hve
        obtain ⟨os, hos, hcont⟩ := ih es rs hlen2 hrs htail
        refine ⟨o :: os, ?_, ?_⟩
        · unfold windowPlan at hos ⊢
          simp only [List.zip_cons_cons, List.map_cons, cartProd]
          rw [List.mem_flatMap]
          exact ⟨o, ho, List.mem_map.mpr ⟨os, hos, rfl⟩⟩
        · unfold windowContains
          simp only [List.zip_cons_cons]
          exact List.Forall₂.cons ⟨hol, hor⟩ hcont

/-- C4 witness: the coverage theorem applied to the spec's concrete scenario,
a 4x4x4 volume with roi (2,2,2) and overlap 1/2, at voxel (3,3,3). -/
theorem window_plan_covers_witness :
    ((0 : ℚ) ≤ 1 / 2 ∧ (1 : ℚ) / 2 < 1 ∧
     ([4, 4, 4] : List Nat).length = ([2, 2, 2] : List Nat).length ∧
     (∀ r ∈ ([2, 2, 2] : List Nat), 1 ≤ r) ∧
     List.Forall₂ (fun v e => v < e) [3, 3, 3] ([4, 4, 4] : List Nat)) ∧
    (∃ origin ∈ windowPlan [4, 4, 4] [2, 2, 2] (1 / 2),
       windowContains origin [3, 3, 3] [2, 2, 2]) :=
  ⟨⟨one_half_pos.le, one_half_lt_one, rfl, by decide,
    List.Forall₂.cons (by decide) (List.Forall₂.cons (by decide)
      (List.Forall₂.cons (by decide) List.Forall₂.nil))⟩,
   window_plan_covers_volume (1 / 2) one_half_pos.le one_half_lt_one [3, 3, 3]
     [4, 4, 4] [2, 2, 2] rfl (by decide)
     (List.Forall₂.cons (by decide) (List.Forall₂.cons (by decide)
       (List.Forall₂.cons (by decide) List.Forall₂.nil)))⟩
